import Mathlib

/-!
Verification of the collaborative-learning chat server (`server.py`).

The development shallowly embeds the server's core: the WebSocket
connection hub (`ConnectionManager`), the attachment/turn builder and the
single-flight AI-response orchestration (`process_ai_response`), and the
per-connection protocol handler (`websocket_endpoint`).  Python strings
are modelled as `List Char`; Python exceptions as `Except`; the external
collaborators (base64/image decoding, PDF parsing, the AutoGen deliberation
engine, the WebSocket transport) as explicit function parameters.
-/

/-- Python `str` values are modelled as lists of characters. -/
abbrev PyStr := List Char

/-- Convert a Lean string literal into the `PyStr` model. -/
def pys (s : String) : PyStr := s.toList

/-- Characters stripped by Python's `str.strip()` (the ASCII whitespace
class; the inputs handled by the server use no exotic Unicode spacing). -/
def pyIsSpace (c : Char) : Bool :=
  c = ' ' || c = '\t' || c = '\n' || c = '\r' || c = '\x0b' || c = '\x0c'

/-- Python `s.strip()`: drop whitespace from the front, then from the back. -/
def pyStrip (s : PyStr) : PyStr :=
  ((s.dropWhile pyIsSpace).reverse.dropWhile pyIsSpace).reverse

/-- The turn-termination sentinel token `"WAIT"`. -/
def waitTok : PyStr := pys "WAIT"

/-- Python `s.replace("WAIT", "")`: remove non-overlapping occurrences of
the sentinel in one left-to-right pass (`server.py`, line 111). -/
def replaceWaitL : PyStr → PyStr
  | 'W' :: 'A' :: 'I' :: 'T' :: rest => replaceWaitL rest
  | c :: rest => c :: replaceWaitL rest
  | [] => []

/-- Python `"WAIT" in s`: does the sentinel occur as a substring? -/
def containsWaitB : PyStr → Bool
  | [] => false
  | c :: cs => waitTok.isPrefixOf (c :: cs) || containsWaitB cs

/-- The server's display-text normalization:
`msg.content.replace("WAIT", "").strip()` (`server.py`, line 111). -/
def stripWait (s : PyStr) : PyStr := pyStrip (replaceWaitL s)

example : stripWait (pys "Try breaking it into steps.WAIT") =
    pys "Try breaking it into steps." := by decide

example : stripWait (pys "WAIT") = [] := by decide

example : stripWait (pys "WAWAITIT") = pys "WAIT" := by decide

/-- One JSON payload sent over a WebSocket (the dictionaries passed to
`send_json`).  A `none` text models Python `None` (JSON `null`). -/
inductive Event where
  | message (sender : PyStr) (text : Option PyStr)
  | typing (sender : PyStr) (is_typing : Option Bool)
deriving DecidableEq

/-- The `sender` field of an outbound payload. -/
def Event.sender : Event → PyStr
  | .message s _ => s
  | .typing s _ => s

/-- An opaque transport handle (one `WebSocket` object). -/
abbrev Conn := Nat

/-- The Connection Hub state: `ConnectionManager.active_connections`
(`server.py`, lines 24-26). -/
structure ConnectionManager where
  active_connections : List Conn
deriving DecidableEq

/-- `ConnectionManager.connect`: accept the transport and append the
connection (`server.py`, lines 28-30). -/
def ConnectionManager.connect (m : ConnectionManager) (ws : Conn) :
    ConnectionManager :=
  ⟨m.active_connections ++ [ws]⟩

/-- `ConnectionManager.disconnect`: remove the connection if present
(`server.py`, lines 32-34). -/
def ConnectionManager.disconnect (m : ConnectionManager) (ws : Conn) :
    ConnectionManager :=
  if ws ∈ m.active_connections then ⟨m.active_connections.erase ws⟩ else m

/-- The `try: await connection.send_json(message) except: pass` body of the
broadcast loop: a raising send is caught and recorded as a failed attempt
(`server.py`, lines 38-41).  `send` models the transport: the outcome of
delivering `msg` on one connection. -/
def trySendJson (send : Conn → Event → Except PyStr Unit) (msg : Event)
    (c : Conn) : Except PyStr Bool :=
  match send c msg with
  | .ok _ => .ok true
  | .error _ => .ok false

/-- The `for connection in self.active_connections` loop of
`ConnectionManager.broadcast` (`server.py`, lines 37-41), returning each
attempted connection paired with whether its send succeeded. -/
def broadcastLoop (send : Conn → Event → Except PyStr Unit) (msg : Event) :
    List Conn → Except PyStr (List (Conn × Bool))
  | [] => .ok []
  | c :: cs => do
    let ok ← trySendJson send msg c
    let rest ← broadcastLoop send msg cs
    pure ((c, ok) :: rest)

/-- `ConnectionManager.broadcast` (`server.py`, lines 36-41): iterate over
the registered connections; the loop body never touches
`active_connections`, so the resulting hub state is the input state. -/
def ConnectionManager.broadcast (m : ConnectionManager)
    (send : Conn → Event → Except PyStr Unit) (msg : Event) :
    Except PyStr (ConnectionManager × List (Conn × Bool)) := do
  let attempts ← broadcastLoop send msg m.active_connections
  pure (m, attempts)

/-- The departure announcement broadcast when a participant disconnects
(`server.py`, line 152). -/
def departureEvent (username : PyStr) : Event :=
  .message (pys "System") (some (pys "🏃 【" ++ username ++ pys "】 离开了"))

/-- The `except WebSocketDisconnect` handler of `websocket_endpoint`
(`server.py`, lines 150-152): drop the connection, then broadcast the
departure announcement. -/
def handleDisconnect (m : ConnectionManager) (ws : Conn) (username : PyStr)
    (send : Conn → Event → Except PyStr Unit) :
    Except PyStr (ConnectionManager × List (Conn × Bool)) :=
  (m.disconnect ws).broadcast send (departureEvent username)

/-- One inbound attachment record, after the `f.get(...)` lookups of
`server.py`, lines 78-80: `name` defaults to `"附件"`, `mime` and `data`
default to the empty string. -/
structure FileRec where
  name : PyStr
  mime : PyStr
  data : PyStr
deriving DecidableEq

/-- An opaque AutoGen `Image` object: the value produced by a successful
`Image.from_base64(pure_b64)` call, carrying its base64 payload. -/
structure Visual where
  b64 : PyStr
deriving DecidableEq

/-- One element of the `task_content` list of `process_ai_response`: the
leading text slot or an appended visual object. -/
inductive TaskItem where
  | text (t : PyStr)
  | image (v : Visual)
deriving DecidableEq

/-- The task value handed to `team.run_stream` (`server.py`, lines
103-106): a plain string, or a `MultiModalMessage` when `task_content`
holds more than one item. -/
inductive Turn where
  | plain (text : PyStr)
  | multi (content : List TaskItem) (source : PyStr)
deriving DecidableEq

/-- `task_content[0] += s` (`server.py`, lines 98 and 100): in the source
the first list element is always the text slot created on line 74, so the
fall-through arm is unreachable. -/
def appendToFirstText (tc : List TaskItem) (s : PyStr) : List TaskItem :=
  match tc with
  | .text t :: rest => .text (t ++ s) :: rest
  | other => other

/-- The delimiter banner wrapped around extracted PDF text
(`server.py`, lines 94-97). -/
def pdfBannerText (name : PyStr) (pages : List PyStr) : PyStr :=
  pys "\n\n--- 📎 附件 PDF (" ++ name ++ pys ") 内容 ---\n" ++
    pages.flatten ++ pys "\n--- PDF 结束 ---\n"

/-- The inline notice appended when PDF decoding or parsing raises
(`server.py`, line 100). -/
def pdfFailNotice (name e : PyStr) : PyStr :=
  pys "\n[无法解析 PDF " ++ name ++ pys ": " ++ e ++ pys "]\n"

/-- Python `b64_data.split(",")[1]` (`server.py`, line 84); the callers
guard on a comma being present, so index 1 exists. -/
def splitCommaSecond (data : PyStr) : PyStr := (data.splitOn ',').getD 1 []

/-- The attachment loop of `process_ai_response` (`server.py`, lines
77-100).  `imgDec` models `Image.from_base64` (raises on undecodable
payloads — there is no local handler for it); `pdfPages` models
`base64.b64decode` plus PyMuPDF page extraction, whose failures the source
catches on line 99. -/
def processFiles (imgDec : PyStr → Except PyStr Visual)
    (pdfPages : PyStr → Except PyStr (List PyStr)) (tc : List TaskItem) :
    List FileRec → Except PyStr (List TaskItem)
  | [] => .ok tc
  | f :: rest =>
    if f.data.isEmpty || !(f.data.contains ',') then
      processFiles imgDec pdfPages tc rest
    else
      let pure_b64 := splitCommaSecond f.data
      if (pys "image/").isPrefixOf f.mime then
        match imgDec pure_b64 with
        | .ok v => processFiles imgDec pdfPages (tc ++ [.image v]) rest
        | .error e => .error e
      else if f.mime == pys "application/pdf" then
        match pdfPages pure_b64 with
        | .ok pages =>
          processFiles imgDec pdfPages
            (appendToFirstText tc (pdfBannerText f.name pages)) rest
        | .error e =>
          processFiles imgDec pdfPages
            (appendToFirstText tc (pdfFailNotice f.name e)) rest
      else
        processFiles imgDec pdfPages tc rest

/-- `task_content[0]` read as the text slot (`server.py`, line 106); in
the source the first element is always the text created on line 74. -/
def headTextOf : List TaskItem → PyStr
  | .text t :: _ => t
  | _ => []

/-- Lines 103-106 of `server.py`: wrap `task_content` into a
`MultiModalMessage` when it holds more than one item, else pass the bare
text. -/
def buildTask (tc : List TaskItem) (username : PyStr) : Turn :=
  if tc.length > 1 then .multi tc username else .plain (headTextOf tc)

/-- Restated from the claim (C8): the text one attachment contributes to
the accumulated first element. -/
def fileTextContribution (pdfPages : PyStr → Except PyStr (List PyStr))
    (f : FileRec) : PyStr :=
  if f.data.isEmpty || !(f.data.contains ',') then []
  else if (pys "image/").isPrefixOf f.mime then []
  else if f.mime == pys "application/pdf" then
    match pdfPages (splitCommaSecond f.data) with
    | .ok pages => pdfBannerText f.name pages
    | .error e => pdfFailNotice f.name e
  else []

/-- Restated from the claim (C8): the visual part one attachment
contributes, if any. -/
def fileVisualContribution (imgDec : PyStr → Except PyStr Visual)
    (f : FileRec) : Option Visual :=
  if f.data.isEmpty || !(f.data.contains ',') then none
  else if (pys "image/").isPrefixOf f.mime then
    (imgDec (splitCommaSecond f.data)).toOption
  else none

/-- The accumulated text contributions of an attachment list, in input
order. -/
def textsOf (pdfPages : PyStr → Except PyStr (List PyStr))
    (files : List FileRec) : PyStr :=
  (files.map (fileTextContribution pdfPages)).flatten

/-- The visual parts of an attachment list, in arrival order. -/
def visualsOf (imgDec : PyStr → Except PyStr Visual)
    (files : List FileRec) : List Visual :=
  files.filterMap (fileVisualContribution imgDec)

/-- One item yielded by `team.run_stream`; `content` is `none` when the
streamed object has no string `content` attribute (the
`hasattr`/`isinstance` guard on line 109 of `server.py`). -/
structure Utterance where
  source : PyStr
  content : Option PyStr

/-- The observable behaviour of one deliberation run of the external
AutoGen engine: the utterances it yields, and `some e` when the stream
raises (with message `e`) after yielding them. -/
structure EngineRun where
  utterances : List Utterance
  failure : Option PyStr

/-- Lines 109-113 of `server.py`: the `message` broadcast produced for one
streamed utterance, if any. -/
def emitForUtterance (u : Utterance) : Option Event :=
  match u.content with
  | none => none
  | some c =>
    if u.source ≠ pys "user" ∧ pyStrip c ≠ [] then
      if stripWait c ≠ [] then
        some (.message u.source (some (stripWait c)))
      else none
    else none

/-- The `except Exception` broadcast of `process_ai_response`
(`server.py`, line 115). -/
def sysErrEvent (e : PyStr) : Event :=
  .message (pys "System") (some (pys "AI 思考出错: " ++ e))

/-- The composing-status broadcast opening a run (`server.py`, line 71). -/
def typingOn : Event := .typing (pys "Planner") (some true)

/-- The composing-status broadcast closing a run (`server.py`, line 117). -/
def typingOff : Event := .typing (pys "Planner") (some false)

/-- The sequence of broadcasts issued by one execution of the body of
`process_ai_response` (`server.py`, lines 69-117), i.e. one Running phase
under `ai_lock`: the opening typing broadcast, then — inside `try` — the
attachment/turn assembly and the streamed responder messages, with any
raised exception converted into a System message, and — in `finally` —
the closing typing broadcast. -/
def process_ai_response (imgDec : PyStr → Except PyStr Visual)
    (pdfPages : PyStr → Except PyStr (List PyStr)) (engine : Turn → EngineRun)
    (user_msg username : PyStr) (files : List FileRec) : List Event :=
  typingOn ::
    (match processFiles imgDec pdfPages [.text user_msg] files with
     | .error e => [sysErrEvent e]
     | .ok tc =>
       (engine (buildTask tc username)).utterances.filterMap emitForUtterance
         ++
         (match (engine (buildTask tc username)).failure with
          | some e => [sysErrEvent e]
          | none => [])) ++
    [typingOff]

/-- One decoded inbound JSON object, after the `data.get(...)` lookups of
`websocket_endpoint` (`server.py`, lines 131-135). -/
structure InData where
  type : Option PyStr
  content : Option PyStr
  files : List FileRec
  is_typing : Option Bool

/-- The filename suffix appended to the echoed text when attachments are
present (`server.py`, lines 139-140). -/
def fileSuffix (files : List FileRec) : PyStr :=
  pys "\n\n*(📎 附带文件: " ++
    List.intercalate (pys ", ") (files.map (·.name)) ++ pys ")*"

/-- Python f-string conversion of a possibly-`None` value. -/
def pyFStr : Option PyStr → PyStr
  | none => pys "None"
  | some s => s

/-- The attributed task text submitted to the orchestrator
(`server.py`, line 144). -/
def taskString (username : PyStr) (content : Option PyStr) : PyStr :=
  pys "人类学生 [" ++ username ++ pys "] 说: " ++ pyFStr content

/-- The body of the receive loop of `websocket_endpoint` for one inbound
event (`server.py`, lines 130-148).  Returns the broadcasts issued and,
for a chat message, `some task` — the argument of the
`asyncio.create_task(process_ai_response(...))` submission.  The `.error`
value models the `TypeError` raised by `None += str` when `content` is
missing but `files` is non-empty. -/
def handleInbound (username : PyStr) (d : InData) :
    Except PyStr (List Event × Option PyStr) :=
  match d.type with
  | none => .ok ([], none)
  | some t =>
    if t == pys "message" then
      if d.files.isEmpty then
        .ok ([.message username d.content],
          some (taskString username d.content))
      else
        match d.content with
        | none => .error (pys "TypeError")
        | some c =>
          .ok ([.message username (some (c ++ fileSuffix d.files))],
            some (taskString username (some c)))
    else if t == pys "typing" then
      .ok ([.typing username d.is_typing], none)
    else
      .ok ([], none)

/-- The scheduling state of the single-flight orchestration around
`ai_lock` (`server.py`, line 67): submissions are numbered in arrival
order; `waiting` is the FIFO queue of tasks that have been created but
have not yet acquired the lock; `running` holds the current lock holder
(at most one, which the invariant below proves); `finished` lists
completed runs in completion order. -/
structure OrchState where
  running : List Nat
  waiting : List Nat
  nextId : Nat
  finished : List Nat
deriving DecidableEq

/-- The initial orchestration state of a fresh room process. -/
def initOrch : OrchState := ⟨[], [], 0, []⟩

/-- The scheduling transitions: `submit` models
`asyncio.create_task(process_ai_response(...))` on line 145 of `server.py`
(always enabled — the caller never waits — and it only appends to the
queue); `acquire` models `async with ai_lock` granting the lock to the
head of the FIFO waiter queue when free (asyncio's lock is FIFO-fair and
the ready queue runs tasks in creation order); `finish` models the end of
one run, which always releases the lock (the `finally` block cannot
raise). -/
inductive OrchStep : OrchState → OrchState → Prop where
  | submit (s : OrchState) :
      OrchStep s ⟨s.running, s.waiting ++ [s.nextId], s.nextId + 1, s.finished⟩
  | acquire (s : OrchState) (id : Nat) (rest : List Nat)
      (hrun : s.running = []) (hw : s.waiting = id :: rest) :
      OrchStep s ⟨[id], rest, s.nextId, s.finished⟩
  | finish (s : OrchState) (id : Nat) (hrun : s.running = [id]) :
      OrchStep s ⟨[], s.waiting, s.nextId, s.finished ++ [id]⟩

/-- The orchestration states reachable from a fresh room process. -/
def OrchReachable (s : OrchState) : Prop :=
  Relation.ReflTransGen OrchStep initOrch s

/-! ### Lemmas about sentinel stripping -/

theorem replaceWaitL_cons_ne (c : Char) (rest : PyStr)
    (hne : ∀ (r : List Char), c = 'W' → rest = 'A' :: 'I' :: 'T' :: r → False) :
    replaceWaitL (c :: rest) = c :: replaceWaitL rest := by
  rw [replaceWaitL.eq_def]
  split
  · rename_i r heq
    injection heq with h1 h2
    exact absurd h2 (fun h => hne r h1 h)
  · rename_i c1 rest1 hcases heq
    injection heq with h1 h2
    subst h1; subst h2; rfl
  · rename_i heq; exact absurd heq (by simp)

theorem containsWait_append_right (l₁ l₂ : PyStr)
    (h : containsWaitB l₂ = true) : containsWaitB (l₁ ++ l₂) = true := by
  induction l₁ with
  | nil => exact h
  | cons c cs ih =>
    show containsWaitB (c :: (cs ++ l₂)) = true
    simp only [containsWaitB, Bool.or_eq_true]
    exact Or.inr ih

theorem containsWait_append_left (l₁ l₂ : PyStr)
    (h : containsWaitB l₁ = true) : containsWaitB (l₁ ++ l₂) = true := by
  induction l₁ with
  | nil => simp [containsWaitB] at h
  | cons c cs ih =>
    simp only [containsWaitB, Bool.or_eq_true] at h
    show containsWaitB (c :: (cs ++ l₂)) = true
    simp only [containsWaitB, Bool.or_eq_true]
    rcases h with h | h
    · left
      rw [List.isPrefixOf_iff_prefix] at h ⊢
      exact h.trans (List.prefix_append (c :: cs) l₂)
    · exact Or.inr (ih h)

theorem containsWait_dropWhile (p : Char → Bool) (l : PyStr)
    (h : containsWaitB (l.dropWhile p) = true) : containsWaitB l = true := by
  obtain ⟨t, ht⟩ := List.dropWhile_suffix (l := l) p
  rw [← ht]
  exact containsWait_append_right t _ h

theorem rtrim_prefix (p : Char → Bool) (l : PyStr) :
    (l.reverse.dropWhile p).reverse <+: l := by
  obtain ⟨t, ht⟩ := List.dropWhile_suffix (l := l.reverse) p
  refine ⟨t.reverse, ?_⟩
  have := congrArg List.reverse ht
  simpa using this

theorem containsWait_pyStrip (l : PyStr)
    (h : containsWaitB (pyStrip l) = true) : containsWaitB l = true := by
  unfold pyStrip at h
  obtain ⟨t, ht⟩ := rtrim_prefix pyIsSpace (l.dropWhile pyIsSpace)
  apply containsWait_dropWhile pyIsSpace
  rw [← ht]
  exact containsWait_append_left _ _ h

theorem replaceWait_of_not_contains (s : PyStr)
    (h : containsWaitB s = false) : replaceWaitL s = s := by
  induction s using replaceWaitL.induct with
  | case1 rest ih =>
    exfalso
    simp only [containsWaitB, Bool.or_eq_false_iff] at h
    have : waitTok.isPrefixOf ('W' :: 'A' :: 'I' :: 'T' :: rest) = true :=
      (List.isPrefixOf_iff_prefix).mpr ⟨rest, rfl⟩
    rw [h.1] at this
    exact Bool.false_ne_true this
  | case2 c rest hne ih =>
    simp only [containsWaitB, Bool.or_eq_false_iff] at h
    rw [replaceWaitL_cons_ne c rest hne, ih h.2]
  | case3 => rfl

theorem dropWhile_dropWhile_py (p : Char → Bool) (l : PyStr) :
    (l.dropWhile p).dropWhile p = l.dropWhile p := by
  induction l with
  | nil => rfl
  | cons a l ih => by_cases h : p a <;> simp [List.dropWhile_cons, h, ih]

theorem head_dropWhile_py (p : Char → Bool) (l : PyStr) :
    ∀ c, (l.dropWhile p).head? = some c → p c = false := by
  induction l with
  | nil => intro c h; simp at h
  | cons a l ih =>
    intro c h
    by_cases hpa : p a
    · simp only [List.dropWhile_cons, hpa, if_true] at h
      exact ih c h
    · have hpa' : p a = false := by simpa using hpa
      rw [List.dropWhile_cons, hpa'] at h
      simp only [Bool.false_eq_true, if_false, List.head?_cons,
        Option.some_inj] at h
      subst h
      exact hpa'

theorem dropWhile_eq_self_of_head (p : Char → Bool) (l : PyStr)
    (h : ∀ c, l.head? = some c → p c = false) : l.dropWhile p = l := by
  cases l with
  | nil => rfl
  | cons a l => simp [List.dropWhile_cons, h a rfl]

theorem pyStrip_idem (l : PyStr) : pyStrip (pyStrip l) = pyStrip l := by
  have hbd : (pyStrip l).dropWhile pyIsSpace = pyStrip l := by
    apply dropWhile_eq_self_of_head
    intro c hc
    obtain ⟨t, ht⟩ := rtrim_prefix pyIsSpace (l.dropWhile pyIsSpace)
    apply head_dropWhile_py pyIsSpace l c
    rw [← ht]
    unfold pyStrip at hc
    cases hb : (((l.dropWhile pyIsSpace).reverse.dropWhile pyIsSpace).reverse) with
    | nil => rw [hb] at hc; simp at hc
    | cons x xs =>
      rw [hb] at hc
      simp only [List.head?_cons, Option.some_inj] at hc
      subst hc
      simp [hb]
  show pyStrip (pyStrip l) = pyStrip l
  conv_lhs => rw [pyStrip, hbd]
  rw [pyStrip, List.reverse_reverse, dropWhile_dropWhile_py]

/-- C3 counterexample: the utterance text `"WAWAITIT"` contains the
sentinel once, yet the broadcast text `stripWait "WAWAITIT" = "WAIT"`
still contains the token (removal recombines the surrounding characters),
and stripping twice yields `""`, differing from stripping once — so the
claim as stated is false. -/
theorem sentinel_stripping_cex :
    containsWaitB (stripWait (pys "WAWAITIT")) = true ∧
      stripWait (stripWait (pys "WAWAITIT")) ≠ stripWait (pys "WAWAITIT") := by
  decide

/-- C3 (amended): stripping removes the sentinel occurrences in one
left-to-right replacement pass; whenever that single pass already leaves
no occurrence of the token (removal can otherwise recombine adjacent
fragments into a new occurrence), the broadcast text never contains the
token and stripping is idempotent. -/
theorem sentinel_stripping_single_pass (s : PyStr)
    (h : containsWaitB (replaceWaitL s) = false) :
    containsWaitB (stripWait s) = false ∧
      stripWait (stripWait s) = stripWait s := by
  have h1 : containsWaitB (stripWait s) = false := by
    cases hb : containsWaitB (stripWait s) with
    | false => rfl
    | true =>
      exfalso
      have := containsWait_pyStrip (replaceWaitL s) hb
      rw [h] at this
      exact Bool.false_ne_true this
  refine ⟨h1, ?_⟩
  show pyStrip (replaceWaitL (stripWait s)) = stripWait s
  rw [replaceWait_of_not_contains _ h1]
  show pyStrip (pyStrip (replaceWaitL s)) = pyStrip (replaceWaitL s)
  exact pyStrip_idem _

/-- Witness for C3 (amended) at the spec's Scenario B utterance. -/
theorem sentinel_stripping_single_pass_witness :
    containsWaitB (replaceWaitL (pys "Try breaking it into steps.WAIT")) =
        false ∧
      (containsWaitB (stripWait (pys "Try breaking it into steps.WAIT")) =
          false ∧
        stripWait (stripWait (pys "Try breaking it into steps.WAIT")) =
          stripWait (pys "Try breaking it into steps.WAIT")) :=
  ⟨by decide, sentinel_stripping_single_pass _ (by decide)⟩

/-! ### Lemmas about the Connection Hub -/

theorem trySendJson_eq (send : Conn → Event → Except PyStr Unit)
    (msg : Event) (c : Conn) :
    trySendJson send msg c = .ok ((send c msg).isOk) := by
  unfold trySendJson Except.isOk Except.toBool
  cases send c msg <;> rfl

theorem broadcastLoop_eq (send : Conn → Event → Except PyStr Unit)
    (msg : Event) (cs : List Conn) :
    broadcastLoop send msg cs =
      .ok (cs.map fun c => (c, (send c msg).isOk)) := by
  induction cs with
  | nil => rfl
  | cons c cs ih =>
    show (do
      let ok ← trySendJson send msg c
      let rest ← broadcastLoop send msg cs
      pure ((c, ok) :: rest) : Except PyStr _) = _
    rw [trySendJson_eq, ih]
    rfl

theorem broadcast_run_eq (m : ConnectionManager)
    (send : Conn → Event → Except PyStr Unit) (msg : Event) :
    m.broadcast send msg =
      .ok (m, m.active_connections.map fun c => (c, (send c msg).isOk)) := by
  unfold ConnectionManager.broadcast
  rw [broadcastLoop_eq]
  rfl

/-- C4 counterexample: with registered connections `[7, 8]` and a
transport whose send to connection 7 raises, broadcast swallows the
failure but performs no implicit leave: the hub state afterwards is still
`[7, 8]` — connection 7 is not removed from the set, contradicting the
claimed failure-to-leave conversion. -/
theorem broadcast_failure_no_leave_cex :
    ConnectionManager.broadcast ⟨[7, 8]⟩
        (fun c _ => if c = 7 then .error (pys "closed") else .ok ())
        typingOn =
      .ok (⟨[7, 8]⟩, [(7, false), (8, true)]) ∧
      7 ∈ (ConnectionManager.mk [7, 8]).active_connections := by
  exact ⟨rfl, by simp⟩

/-- C4 (amended): a per-connection send failure during broadcast is
caught and ignored: broadcast never propagates an error to its caller,
every registered connection receives its own delivery attempt regardless
of failures on the others, and the failing connection is NOT removed —
the hub's membership is returned exactly as it was (removal happens only
through `disconnect`). -/
theorem broadcast_failure_swallowed (m : ConnectionManager)
    (send : Conn → Event → Except PyStr Unit) (msg : Event) :
    m.broadcast send msg =
      .ok (m, m.active_connections.map fun c => (c, (send c msg).isOk)) :=
  broadcast_run_eq m send msg

/-- C10: a broadcast call never modifies the hub's connection set: it
returns the membership it started with, while attempting delivery on
exactly the registered connections, however many sends fail. -/
theorem broadcast_frame (m : ConnectionManager)
    (send : Conn → Event → Except PyStr Unit) (msg : Event) :
    ∃ att, m.broadcast send msg = .ok (m, att) ∧
      att.map Prod.fst = m.active_connections := by
  refine ⟨_, broadcast_run_eq m send msg, ?_⟩
  simp [Function.comp_def]

/-- C9 counterexample: with hub membership `[5, 6]`, participant "alice"
on connection 5 disconnecting leads the handler to drop 5 first and only
then broadcast the departure: the departure broadcast attempts exactly
`[6]`, whereas broadcasting before the drop would have attempted `[5, 6]`
— the claimed broadcast-then-drop order is false on this input. -/
theorem disconnect_order_cex :
    handleDisconnect ⟨[5, 6]⟩ 5 (pys "alice") (fun _ _ => .ok ()) =
        .ok (⟨[6]⟩, [(6, true)]) ∧
      (5, true) ∉ [(6, true)] := by
  exact ⟨rfl, by simp⟩

/-- C9 (amended): when a participant's transport disconnects, the hub
first drops that connection from its set and then broadcasts the
departure message event (sender "System"): the departure broadcast
attempts exactly the post-drop membership. -/
theorem disconnect_drop_then_broadcast (m : ConnectionManager) (ws : Conn)
    (username : PyStr) (send : Conn → Event → Except PyStr Unit) :
    handleDisconnect m ws username send =
      .ok (m.disconnect ws,
        (m.disconnect ws).active_connections.map fun c =>
          (c, (send c (departureEvent username)).isOk)) ∧
      (departureEvent username).sender = pys "System" :=
  ⟨broadcast_run_eq (m.disconnect ws) send (departureEvent username), rfl⟩

/-! ### Single-flight orchestration -/

theorem orch_step_inv (s t : OrchState) (step : OrchStep s t)
    (ih : s.running.length ≤ 1 ∧
      s.finished ++ s.running ++ s.waiting = List.range s.nextId) :
    t.running.length ≤ 1 ∧
      t.finished ++ t.running ++ t.waiting = List.range t.nextId := by
  cases step with
  | submit =>
    refine ⟨ih.1, ?_⟩
    show s.finished ++ s.running ++ (s.waiting ++ [s.nextId]) =
      List.range (s.nextId + 1)
    rw [List.range_succ, ← ih.2]
    simp
  | acquire id rest hrun hw =>
    refine ⟨by simp, ?_⟩
    show s.finished ++ [id] ++ rest = List.range s.nextId
    rw [← ih.2, hrun, hw]
    simp
  | finish id hrun =>
    refine ⟨by simp, ?_⟩
    show s.finished ++ [id] ++ [] ++ s.waiting = List.range s.nextId
    rw [← ih.2, hrun]
    simp

theorem orch_invariant (s : OrchState) (h : OrchReachable s) :
    s.running.length ≤ 1 ∧
      s.finished ++ s.running ++ s.waiting = List.range s.nextId := by
  induction h with
  | refl => exact ⟨by simp [initOrch], by simp [initOrch]⟩
  | tail hsteps step ih => exact orch_step_inv _ _ step ih

/-- C1: single-flight orchestration.  In every reachable scheduling state:
at most one run holds the lock (is Running); completed runs, the current
holder and the FIFO backlog together are exactly the submissions `0..n-1`
in arrival order — so runs are executed once per submission and complete
in strict FIFO order (`finished` is always a prefix of the arrival order),
and when the system is quiescent the executed runs equal the submissions
exactly; and the `submit` transition is enabled in every state and only
appends to the queue — submission never blocks the caller on a running
deliberation. -/
theorem single_flight_fifo (s : OrchState) (h : OrchReachable s) :
    s.running.length ≤ 1 ∧
      s.finished ++ s.running ++ s.waiting = List.range s.nextId ∧
      s.finished <+: List.range s.nextId ∧
      (s.running = [] → s.waiting = [] → s.finished = List.range s.nextId) ∧
      OrchStep s
        ⟨s.running, s.waiting ++ [s.nextId], s.nextId + 1, s.finished⟩ := by
  obtain ⟨h1, h2⟩ := orch_invariant s h
  refine ⟨h1, h2, ⟨s.running ++ s.waiting, by rw [← h2]; simp⟩, ?_, OrchStep.submit s⟩
  intro hrun hwait
  rw [← h2, hrun, hwait]
  simp

/-- Witness for C1: the state after one submission, its lock acquisition
and its completion is reachable, and its one finished run matches its one
submission. -/
theorem single_flight_fifo_witness :
    OrchReachable ⟨[], [], 1, [0]⟩ ∧
      OrchState.finished ⟨[], [], 1, [0]⟩ = List.range 1 := by
  have h1 : OrchStep initOrch ⟨[], [0], 1, []⟩ := OrchStep.submit initOrch
  have h2 : OrchStep ⟨[], [0], 1, []⟩ ⟨[0], [], 1, []⟩ :=
    OrchStep.acquire _ 0 [] rfl rfl
  have h3 : OrchStep ⟨[0], [], 1, []⟩ ⟨[], [], 1, [0]⟩ :=
    OrchStep.finish _ 0 rfl
  have hr : OrchReachable ⟨[], [], 1, [0]⟩ :=
    Relation.ReflTransGen.head h1
      (Relation.ReflTransGen.head h2 (Relation.ReflTransGen.single h3))
  exact ⟨hr, (single_flight_fifo _ hr).2.2.2.1 rfl rfl⟩

/-! ### The broadcast trace of one Running phase -/

theorem emitForUtterance_some (u : Utterance) (e : Event)
    (h : emitForUtterance u = some e) :
    ∃ c, u.content = some c ∧ u.source ≠ pys "user" ∧ stripWait c ≠ [] ∧
      e = .message u.source (some (stripWait c)) := by
  unfold emitForUtterance at h
  cases hc : u.content with
  | none => rw [hc] at h; simp at h
  | some c =>
    rw [hc] at h
    have h' : (if u.source ≠ pys "user" ∧ pyStrip c ≠ [] then
        if stripWait c ≠ [] then
          some (Event.message u.source (some (stripWait c)))
        else none
      else none) = some e := h
    by_cases h1 : u.source ≠ pys "user" ∧ pyStrip c ≠ []
    · rw [if_pos h1] at h'
      by_cases h2 : stripWait c ≠ []
      · rw [if_pos h2] at h'
        exact ⟨c, rfl, h1.1, h2, (Option.some_inj.mp h').symm⟩
      · rw [if_neg h2] at h'; simp at h'
    · rw [if_neg h1] at h'; simp at h'

/-- C2: the typing bracket.  Every execution of one Running phase —
whatever the attachment decoders do, whatever the deliberation engine
yields, and whether or not it fails partway — broadcasts exactly one
`typing:true`, first, before every `message` event of the run, and
exactly one `typing:false`, last, after every `message` event of the run;
everything in between is a `message` event. -/
theorem typing_bracket (imgDec : PyStr → Except PyStr Visual)
    (pdfPages : PyStr → Except PyStr (List PyStr)) (engine : Turn → EngineRun)
    (um username : PyStr) (files : List FileRec) :
    ∃ mid,
      process_ai_response imgDec pdfPages engine um username files =
        typingOn :: (mid ++ [typingOff]) ∧
      (∀ e ∈ mid, ∃ sender text, e = Event.message sender text) ∧
      typingOn ∉ mid ∧ typingOff ∉ mid := by
  refine ⟨(match processFiles imgDec pdfPages [.text um] files with
    | .error e => [sysErrEvent e]
    | .ok tc =>
      (engine (buildTask tc username)).utterances.filterMap emitForUtterance
        ++
        (match (engine (buildTask tc username)).failure with
         | some e => [sysErrEvent e]
         | none => [])), rfl, ?_, ?_, ?_⟩
  all_goals
    have hmsg : ∀ e ∈ (match processFiles imgDec pdfPages [.text um] files with
      | .error e => [sysErrEvent e]
      | .ok tc =>
        (engine (buildTask tc username)).utterances.filterMap
            emitForUtterance ++
          (match (engine (buildTask tc username)).failure with
           | some e => [sysErrEvent e]
           | none => [])),
        ∃ sender text, e = Event.message sender text := by
      intro e he
      cases hpf : processFiles imgDec pdfPages [.text um] files with
      | error err =>
        rw [hpf] at he
        simp only [List.mem_singleton] at he
        exact ⟨_, _, he⟩
      | ok tc =>
        rw [hpf] at he
        rcases List.mem_append.mp he with hf | hfail
        · obtain ⟨u', _, hemit⟩ := List.mem_filterMap.mp hf
          obtain ⟨c, _, _, _, hshape⟩ := emitForUtterance_some u' e hemit
          exact ⟨_, _, hshape⟩
        · cases hfl : (engine (buildTask tc username)).failure with
          | none => rw [hfl] at hfail; simp at hfail
          | some err =>
            rw [hfl] at hfail
            simp only [List.mem_singleton] at hfail
            exact ⟨_, _, hfail⟩
  · exact hmsg
  · intro hmem
    obtain ⟨s, t, hst⟩ := hmsg typingOn hmem
    exact absurd hst (by simp [typingOn])
  · intro hmem
    obtain ⟨s, t, hst⟩ := hmsg typingOff hmem
    exact absurd hst (by simp [typingOff])

theorem process_ai_response_mem (imgDec : PyStr → Except PyStr Visual)
    (pdfPages : PyStr → Except PyStr (List PyStr)) (engine : Turn → EngineRun)
    (um username : PyStr) (files : List FileRec) (e : Event)
    (he : e ∈ process_ai_response imgDec pdfPages engine um username files) :
    e = typingOn ∨ e = typingOff ∨ (∃ err, e = sysErrEvent err) ∨
      ∃ u', emitForUtterance u' = some e := by
  unfold process_ai_response at he
  rcases List.mem_append.mp he with hL | hoff
  · rcases List.mem_cons.mp hL with rfl | hmid
    · exact Or.inl rfl
    cases hpf : processFiles imgDec pdfPages [.text um] files with
    | error err =>
      rw [hpf] at hmid
      simp only [List.mem_singleton] at hmid
      exact Or.inr (Or.inr (Or.inl ⟨err, hmid⟩))
    | ok tc =>
      rw [hpf] at hmid
      rcases List.mem_append.mp hmid with hf | hfail
      · obtain ⟨u', _, hemit⟩ := List.mem_filterMap.mp hf
        exact Or.inr (Or.inr (Or.inr ⟨u', hemit⟩))
      · cases hfl : (engine (buildTask tc username)).failure with
        | none => rw [hfl] at hfail; simp at hfail
        | some err =>
          rw [hfl] at hfail
          simp only [List.mem_singleton] at hfail
          exact Or.inr (Or.inr (Or.inl ⟨err, hfail⟩))
  · simp only [List.mem_singleton] at hoff
    exact Or.inr (Or.inl hoff)

/-- C7: every `message` event broadcast by a Running phase carries
non-empty post-normalization text; an utterance whose text strips to
empty (such as `"WAIT"` alone) produces no `message` broadcast; and an
utterance from the human channel (source `"user"`) is never rebroadcast. -/
theorem orch_message_nonempty :
    (∀ imgDec pdfPages engine um username files sender text,
        Event.message sender text ∈
          process_ai_response imgDec pdfPages engine um username files →
        ∃ t, text = some t ∧ t ≠ []) ∧
      (∀ (u : Utterance) (c : PyStr), u.content = some c →
        stripWait c = [] → emitForUtterance u = none) ∧
      (∀ u : Utterance, u.source = pys "user" →
        emitForUtterance u = none) := by
  refine ⟨?_, ?_, ?_⟩
  · intro imgDec pdfPages engine um username files sender text hmem
    rcases process_ai_response_mem imgDec pdfPages engine um username files
        _ hmem with h | h | ⟨err, h⟩ | ⟨u', h⟩
    · exact absurd h (by simp [typingOn])
    · exact absurd h (by simp [typingOff])
    · rw [sysErrEvent] at h
      rw [Event.message.injEq] at h
      refine ⟨_, h.2, ?_⟩
      exact List.append_ne_nil_of_left_ne_nil (by decide) err
    · obtain ⟨c, _, _, hne, hshape⟩ := emitForUtterance_some u' _ h
      rw [Event.message.injEq] at hshape
      exact ⟨stripWait c, hshape.2, hne⟩
  · intro u c hc hsw
    unfold emitForUtterance
    rw [hc]
    show (if u.source ≠ pys "user" ∧ pyStrip c ≠ [] then
      if stripWait c ≠ [] then
        some (Event.message u.source (some (stripWait c)))
      else none
    else none) = none
    split_ifs with ha hb
    · exact absurd hsw hb
    · rfl
    · rfl
  · intro u hu
    unfold emitForUtterance
    cases hc : u.content with
    | none => rfl
    | some c =>
      show (if u.source ≠ pys "user" ∧ pyStrip c ≠ [] then
        if stripWait c ≠ [] then
          some (Event.message u.source (some (stripWait c)))
        else none
      else none) = none
      rw [if_neg (fun hcon => hcon.1 hu)]

/-- Witness for C7: the Scenario C utterance `"WAIT"` alone yields no
broadcast; a user-sourced utterance yields no broadcast; and a concrete
run's broadcast `message` text is non-empty. -/
theorem orch_message_nonempty_witness :
    emitForUtterance ⟨pys "Planner", some (pys "WAIT")⟩ = none ∧
      emitForUtterance ⟨pys "user", some (pys "hello")⟩ = none ∧
      ∃ t, (some (pys "ok") : Option PyStr) = some t ∧ t ≠ [] := by
  refine ⟨?_, ?_, ?_⟩
  · exact orch_message_nonempty.2.1 ⟨pys "Planner", some (pys "WAIT")⟩
      (pys "WAIT") rfl (by decide)
  · exact orch_message_nonempty.2.2 ⟨pys "user", some (pys "hello")⟩ rfl
  · exact orch_message_nonempty.1 (fun s => .ok ⟨s⟩) (fun _ => .ok [])
      (fun _ => ⟨[⟨pys "Planner", some (pys "okWAIT")⟩], none⟩)
      (pys "hi") (pys "alice") [] (pys "Planner") (some (pys "ok"))
      (by decide)

/-! ### Attachment processing and turn shape -/

/-- C5 counterexample: a turn with one image attachment whose payload
fails to decode followed by one well-formed PDF attachment.  The claim
says the bad attachment is skipped with no propagated error and the
remaining attachment is processed; instead the decode failure propagates
out of the attachment loop as an error — the PDF is never processed — and
the orchestrator's run aborts with a System error broadcast (and no
deliberation). -/
theorem attachment_decode_error_cex :
    processFiles (fun _ => .error (pys "bad image data"))
        (fun _ => .ok [pys "PAGE"]) [.text (pys "hi")]
        [⟨pys "a.png", pys "image/png", pys "data:image/png;base64,xxx"⟩,
         ⟨pys "b.pdf", pys "application/pdf",
           pys "data:application/pdf;base64,yyy"⟩] =
        .error (pys "bad image data") ∧
      process_ai_response (fun _ => .error (pys "bad image data"))
        (fun _ => .ok [pys "PAGE"]) (fun _ => ⟨[], none⟩)
        (pys "hi") (pys "alice")
        [⟨pys "a.png", pys "image/png", pys "data:image/png;base64,xxx"⟩,
         ⟨pys "b.pdf", pys "application/pdf",
           pys "data:application/pdf;base64,yyy"⟩] =
        [typingOn, sysErrEvent (pys "bad image data"), typingOff] :=
  ⟨rfl, rfl⟩

/-- C5 (amended): an attachment whose payload is missing or lacks the
data-URI comma separator is skipped silently — no error propagates and
the remaining files are processed exactly as if it were absent; a PDF
attachment whose decode/extraction fails is not skipped but contributes
an inline failure notice to the turn text, processing continuing; an
image attachment whose payload fails to decode raises — the error
propagates out of the attachment loop, aborting the base text and every
remaining attachment of that turn (it is then caught by the
orchestrator's run-level handler). -/
theorem attachment_best_effort_amended
    (imgDec : PyStr → Except PyStr Visual)
    (pdfPages : PyStr → Except PyStr (List PyStr))
    (tc : List TaskItem) (f : FileRec) (rest : List FileRec) :
    ((f.data.isEmpty || !(f.data.contains ',')) = true →
      processFiles imgDec pdfPages tc (f :: rest) =
        processFiles imgDec pdfPages tc rest) ∧
    (∀ e, (f.data.isEmpty || !(f.data.contains ',')) = false →
      (pys "image/").isPrefixOf f.mime = true →
      imgDec (splitCommaSecond f.data) = .error e →
      processFiles imgDec pdfPages tc (f :: rest) = .error e) ∧
    (∀ e, (f.data.isEmpty || !(f.data.contains ',')) = false →
      (pys "image/").isPrefixOf f.mime = false →
      (f.mime == pys "application/pdf") = true →
      pdfPages (splitCommaSecond f.data) = .error e →
      processFiles imgDec pdfPages tc (f :: rest) =
        processFiles imgDec pdfPages
          (appendToFirstText tc (pdfFailNotice f.name e)) rest) := by
  refine ⟨?_, ?_, ?_⟩
  · intro hskip
    simp only [processFiles]
    rw [if_pos hskip]
  · intro e hskip himg hdec
    simp only [processFiles]
    rw [if_neg (by simpa using hskip), if_pos himg, hdec]
  · intro e hskip himg hpdf hpp
    simp only [processFiles]
    rw [if_neg (by simpa using hskip), if_neg (by simp [himg]),
      if_pos hpdf, hpp]

/-- Witness for C5 (amended): a payload without the comma separator is
skipped; a failing image decode propagates its error; a failing PDF
parse turns into an inline notice. -/
theorem attachment_best_effort_amended_witness :
    processFiles (fun s => .ok ⟨s⟩) (fun _ => .ok []) [.text (pys "hi")]
        [⟨pys "a.png", pys "image/png", pys "nocomma"⟩] =
      processFiles (fun s => .ok ⟨s⟩) (fun _ => .ok [])
        [.text (pys "hi")] [] ∧
    processFiles (fun _ => .error (pys "e1")) (fun _ => .ok [])
        [.text (pys "hi")]
        [⟨pys "a.png", pys "image/png", pys "d,XX"⟩] = .error (pys "e1") ∧
    processFiles (fun s => .ok ⟨s⟩) (fun _ => .error (pys "e2"))
        [.text (pys "hi")]
        [⟨pys "b.pdf", pys "application/pdf", pys "d,YY"⟩] =
      processFiles (fun s => .ok ⟨s⟩) (fun _ => .error (pys "e2"))
        (appendToFirstText [.text (pys "hi")]
          (pdfFailNotice (pys "b.pdf") (pys "e2"))) [] := by
  refine ⟨?_, ?_, ?_⟩
  · exact (attachment_best_effort_amended (fun s => .ok ⟨s⟩) (fun _ => .ok [])
      [.text (pys "hi")] ⟨pys "a.png", pys "image/png", pys "nocomma"⟩
      []).1 (by decide)
  · exact (attachment_best_effort_amended (fun _ => .error (pys "e1"))
      (fun _ => .ok []) [.text (pys "hi")]
      ⟨pys "a.png", pys "image/png", pys "d,XX"⟩ []).2.1 (pys "e1")
      (by decide) (by decide) rfl
  · exact (attachment_best_effort_amended (fun s => .ok ⟨s⟩)
      (fun _ => .error (pys "e2")) [.text (pys "hi")]
      ⟨pys "b.pdf", pys "application/pdf", pys "d,YY"⟩ []).2.2 (pys "e2")
      (by decide) (by decide) (by decide) rfl

theorem textsOf_cons (pdfPages : PyStr → Except PyStr (List PyStr))
    (f : FileRec) (rest : List FileRec) :
    textsOf pdfPages (f :: rest) =
      fileTextContribution pdfPages f ++ textsOf pdfPages rest := by
  simp [textsOf]

theorem visualsOf_cons_none (imgDec : PyStr → Except PyStr Visual)
    (f : FileRec) (rest : List FileRec)
    (h : fileVisualContribution imgDec f = none) :
    visualsOf imgDec (f :: rest) = visualsOf imgDec rest := by
  simp [visualsOf, List.filterMap_cons, h]

theorem visualsOf_cons_some (imgDec : PyStr → Except PyStr Visual)
    (f : FileRec) (rest : List FileRec) (v : Visual)
    (h : fileVisualContribution imgDec f = some v) :
    visualsOf imgDec (f :: rest) = v :: visualsOf imgDec rest := by
  simp [visualsOf, List.filterMap_cons, h]

theorem ftc_skip (pdfPages : PyStr → Except PyStr (List PyStr)) (f : FileRec)
    (hskip : (f.data.isEmpty || !(f.data.contains ',')) = true) :
    fileTextContribution pdfPages f = [] := by
  unfold fileTextContribution
  rw [if_pos hskip]

theorem fvc_skip (imgDec : PyStr → Except PyStr Visual) (f : FileRec)
    (hskip : (f.data.isEmpty || !(f.data.contains ',')) = true) :
    fileVisualContribution imgDec f = none := by
  unfold fileVisualContribution
  rw [if_pos hskip]

theorem ftc_img (pdfPages : PyStr → Except PyStr (List PyStr)) (f : FileRec)
    (hskip : ¬(f.data.isEmpty || !(f.data.contains ',')) = true)
    (himg : (pys "image/").isPrefixOf f.mime = true) :
    fileTextContribution pdfPages f = [] := by
  unfold fileTextContribution
  rw [if_neg hskip, if_pos himg]

theorem fvc_img (imgDec : PyStr → Except PyStr Visual) (f : FileRec)
    (hskip : ¬(f.data.isEmpty || !(f.data.contains ',')) = true)
    (himg : (pys "image/").isPrefixOf f.mime = true) :
    fileVisualContribution imgDec f =
      (imgDec (splitCommaSecond f.data)).toOption := by
  unfold fileVisualContribution
  rw [if_neg hskip, if_pos himg]

theorem fvc_nonimg (imgDec : PyStr → Except PyStr Visual) (f : FileRec)
    (hskip : ¬(f.data.isEmpty || !(f.data.contains ',')) = true)
    (himg : ¬(pys "image/").isPrefixOf f.mime = true) :
    fileVisualContribution imgDec f = none := by
  unfold fileVisualContribution
  rw [if_neg hskip, if_neg himg]

theorem ftc_pdf_ok (pdfPages : PyStr → Except PyStr (List PyStr))
    (f : FileRec) (pages : List PyStr)
    (hskip : ¬(f.data.isEmpty || !(f.data.contains ',')) = true)
    (himg : ¬(pys "image/").isPrefixOf f.mime = true)
    (hpdf : (f.mime == pys "application/pdf") = true)
    (hpp : pdfPages (splitCommaSecond f.data) = .ok pages) :
    fileTextContribution pdfPages f = pdfBannerText f.name pages := by
  unfold fileTextContribution
  rw [if_neg hskip, if_neg himg, if_pos hpdf, hpp]

theorem ftc_pdf_err (pdfPages : PyStr → Except PyStr (List PyStr))
    (f : FileRec) (e : PyStr)
    (hskip : ¬(f.data.isEmpty || !(f.data.contains ',')) = true)
    (himg : ¬(pys "image/").isPrefixOf f.mime = true)
    (hpdf : (f.mime == pys "application/pdf") = true)
    (hpp : pdfPages (splitCommaSecond f.data) = .error e) :
    fileTextContribution pdfPages f = pdfFailNotice f.name e := by
  unfold fileTextContribution
  rw [if_neg hskip, if_neg himg, if_pos hpdf, hpp]

theorem ftc_other (pdfPages : PyStr → Except PyStr (List PyStr))
    (f : FileRec)
    (hskip : ¬(f.data.isEmpty || !(f.data.contains ',')) = true)
    (himg : ¬(pys "image/").isPrefixOf f.mime = true)
    (hpdf : ¬(f.mime == pys "application/pdf") = true) :
    fileTextContribution pdfPages f = [] := by
  unfold fileTextContribution
  rw [if_neg hskip, if_neg himg, if_neg hpdf]

theorem processFiles_ok_shape (imgDec : PyStr → Except PyStr Visual)
    (pdfPages : PyStr → Except PyStr (List PyStr)) :
    ∀ (files : List FileRec) (t : PyStr) (vs : List Visual)
      (tc' : List TaskItem),
      processFiles imgDec pdfPages (.text t :: vs.map .image) files =
        .ok tc' →
      tc' = .text (t ++ textsOf pdfPages files) ::
        (vs ++ visualsOf imgDec files).map .image := by
  intro files
  induction files with
  | nil =>
    intro t vs tc' h
    simp only [processFiles] at h
    injection h with h
    subst h
    simp [textsOf, visualsOf]
  | cons f rest ih =>
    intro t vs tc' h
    simp only [processFiles] at h
    by_cases hskip : (f.data.isEmpty || !(f.data.contains ',')) = true
    · rw [if_pos hskip] at h
      rw [ih t vs tc' h, textsOf_cons, ftc_skip pdfPages f hskip,
        visualsOf_cons_none imgDec f rest (fvc_skip imgDec f hskip)]
      simp
    · rw [if_neg hskip] at h
      by_cases himg : (pys "image/").isPrefixOf f.mime = true
      · rw [if_pos himg] at h
        cases hdec : imgDec (splitCommaSecond f.data) with
        | error e =>
          rw [hdec] at h
          have h' : (Except.error e : Except PyStr (List TaskItem)) =
              .ok tc' := h
          exact absurd h' (by simp)
        | ok v =>
          rw [hdec] at h
          have h' : processFiles imgDec pdfPages
              ((TaskItem.text t :: vs.map .image) ++ [.image v]) rest =
                .ok tc' := h
          have harr : (TaskItem.text t :: vs.map .image) ++ [.image v] =
              .text t :: (vs ++ [v]).map .image := by simp
          rw [harr] at h'
          rw [ih t (vs ++ [v]) tc' h', textsOf_cons,
            ftc_img pdfPages f hskip himg,
            visualsOf_cons_some imgDec f rest v
              (by rw [fvc_img imgDec f hskip himg, hdec]; rfl)]
          simp
      · rw [if_neg himg] at h
        by_cases hpdf : (f.mime == pys "application/pdf") = true
        · rw [if_pos hpdf] at h
          cases hpp : pdfPages (splitCommaSecond f.data) with
          | ok pages =>
            rw [hpp] at h
            have h' : processFiles imgDec pdfPages
                (appendToFirstText (TaskItem.text t :: vs.map .image)
                  (pdfBannerText f.name pages)) rest = .ok tc' := h
            have hap : appendToFirstText (TaskItem.text t :: vs.map .image)
                (pdfBannerText f.name pages) =
                .text (t ++ pdfBannerText f.name pages) :: vs.map .image :=
              rfl
            rw [hap] at h'
            rw [ih (t ++ pdfBannerText f.name pages) vs tc' h', textsOf_cons,
              ftc_pdf_ok pdfPages f pages hskip himg hpdf hpp,
              visualsOf_cons_none imgDec f rest
                (fvc_nonimg imgDec f hskip himg)]
            simp
          | error e =>
            rw [hpp] at h
            have h' : processFiles imgDec pdfPages
                (appendToFirstText (TaskItem.text t :: vs.map .image)
                  (pdfFailNotice f.name e)) rest = .ok tc' := h
            have hap : appendToFirstText (TaskItem.text t :: vs.map .image)
                (pdfFailNotice f.name e) =
                .text (t ++ pdfFailNotice f.name e) :: vs.map .image := rfl
            rw [hap] at h'
            rw [ih (t ++ pdfFailNotice f.name e) vs tc' h', textsOf_cons,
              ftc_pdf_err pdfPages f e hskip himg hpdf hpp,
              visualsOf_cons_none imgDec f rest
                (fvc_nonimg imgDec f hskip himg)]
            simp
        · rw [if_neg hpdf] at h
          rw [ih t vs tc' h, textsOf_cons,
            ftc_other pdfPages f hskip himg hpdf,
            visualsOf_cons_none imgDec f rest
              (fvc_nonimg imgDec f hskip himg)]
          simp

/-- C8: turn shape.  Whenever the attachment loop completes without
raising, the assembled `task_content` is the accumulated text — the base
text with every PDF text contribution concatenated in input order — as
first element, followed by the visual parts in arrival order; when no
visual part was produced, the built task degenerates to the plain
accumulated text, and otherwise it is the multi-part structure with the
accumulated text first and the visual parts after it. -/
theorem turn_shape (imgDec : PyStr → Except PyStr Visual)
    (pdfPages : PyStr → Except PyStr (List PyStr)) (base username : PyStr)
    (files : List FileRec) (tc' : List TaskItem)
    (h : processFiles imgDec pdfPages [.text base] files = .ok tc') :
    tc' = .text (base ++ textsOf pdfPages files) ::
        (visualsOf imgDec files).map .image ∧
      (visualsOf imgDec files = [] →
        buildTask tc' username = .plain (base ++ textsOf pdfPages files)) ∧
      (visualsOf imgDec files ≠ [] →
        buildTask tc' username =
          .multi (.text (base ++ textsOf pdfPages files) ::
            (visualsOf imgDec files).map .image) username) := by
  have hshape := processFiles_ok_shape imgDec pdfPages files base [] tc' h
  simp only [List.nil_append] at hshape
  refine ⟨hshape, ?_, ?_⟩
  · intro hvis
    rw [hshape, hvis, buildTask]
    simp [headTextOf]
  · intro hvis
    rw [hshape, buildTask, if_pos]
    show (TaskItem.text (base ++ textsOf pdfPages files) ::
      (visualsOf imgDec files).map TaskItem.image).length > 1
    simp only [List.length_cons, List.length_map, gt_iff_lt]
    have := List.length_pos.mpr hvis
    omega

/-- Witness for C8: one well-formed text plus one well-formed image
attachment yields the multi-part shape with the text first. -/
theorem turn_shape_witness :
    processFiles (fun s => .ok ⟨s⟩) (fun _ => .ok [pys "P"])
        [.text (pys "hi")]
        [⟨pys "a.png", pys "image/png",
          pys "data:image/png;base64,IMGDATA"⟩] =
      .ok [.text (pys "hi"), .image ⟨pys "IMGDATA"⟩] ∧
    [TaskItem.text (pys "hi"), TaskItem.image ⟨pys "IMGDATA"⟩] =
      TaskItem.text (pys "hi" ++ textsOf (fun _ => .ok [pys "P"])
          [⟨pys "a.png", pys "image/png",
            pys "data:image/png;base64,IMGDATA"⟩]) ::
        (visualsOf (fun s => .ok ⟨s⟩)
          [⟨pys "a.png", pys "image/png",
            pys "data:image/png;base64,IMGDATA"⟩]).map TaskItem.image :=
  ⟨rfl, (turn_shape (fun s => .ok ⟨s⟩) (fun _ => .ok [pys "P"]) (pys "hi")
    (pys "alice")
    [⟨pys "a.png", pys "image/png", pys "data:image/png;base64,IMGDATA"⟩]
    [.text (pys "hi"), .image ⟨pys "IMGDATA"⟩] rfl).1⟩

/-! ### Protocol-boundary handling of inbound messages -/

/-- C6 counterexample: an inbound `message` event whose content is
whitespace (empty after trimming) is NOT dropped: the handler echoes it
to the connections and submits a deliberation task for it — contradicting
the claimed validation. -/
theorem empty_content_not_dropped_cex :
    handleInbound (pys "alice")
        ⟨some (pys "message"), some (pys "   "), [], none⟩ =
      .ok ([.message (pys "alice") (some (pys "   "))],
        some (taskString (pys "alice") (some (pys "   ")))) ∧
      pyStrip (pys "   ") = [] :=
  ⟨rfl, by decide⟩

/-- C6 (amended): the receive loop performs no emptiness validation: an
inbound `message` event whose content is empty after trimming is echoed
to the connections and submitted to the orchestrator exactly like any
other message; a `message` event with missing content and no files is
likewise echoed (with a null text) and submitted (rendered `"None"`). -/
theorem no_content_validation (username c : PyStr) (files : List FileRec)
    (_h : pyStrip c = []) :
    (files.isEmpty = true →
      handleInbound username ⟨some (pys "message"), some c, files, none⟩ =
        .ok ([.message username (some c)],
          some (taskString username (some c)))) ∧
    handleInbound username ⟨some (pys "message"), none, [], none⟩ =
      .ok ([.message username none], some (taskString username none)) := by
  constructor
  · intro hf
    simp only [handleInbound]
    rw [if_pos (by decide), if_pos hf]
  · simp only [handleInbound]
    rw [if_pos (by decide), if_pos (by decide)]

/-- Witness for C6 (amended) at the empty content string. -/
theorem no_content_validation_witness :
    pyStrip (pys "") = [] ∧
      handleInbound (pys "alice")
          ⟨some (pys "message"), some (pys ""), [], none⟩ =
        .ok ([.message (pys "alice") (some (pys ""))],
          some (taskString (pys "alice") (some (pys "")))) :=
  ⟨by decide,
    (no_content_validation (pys "alice") (pys "") [] (by decide)).1 rfl⟩
